import Mathlib

/-!
# Verification of the pypaint core (code.py)

A shallow embedding of the paint program's core: the pointer pollers
(`TouchscreenPoller.poll`, `CursorPoller.poll`), the per-tick event
classification of `Paint.run` (`_was_just_pressed`, `_was_just_released`,
`_did_move`), the bounded pixel write `Paint._plot`, and the Bresenham-style
line walk of `Paint._goto`.

Conventions of the embedding:
* Coordinates are `Int`; positions are `Int × Int`.
* The framebuffer is a total function `Int × Int → Nat` holding palette
  indices; `_plot`'s `try/except IndexError` becomes an explicit bounds
  check (an out-of-bounds write returns the framebuffer unchanged).
* The source's error accumulator `err` starts at `dx / 2` (a Python float
  whose value is an exact half-integer); we track `e2 = 2 * err`, which is
  always an integer, so every comparison is exact.
* The unbounded `while` loop of `_goto` is given explicit fuel; the fuel
  actually supplied (`dx + 1`) is proved to run the loop to completion
  (the loop guard, not fuel exhaustion, ends the walk).
* A Python crash (the uncaught `TypeError` from subscripting `None`) is
  modelled as `Option`: `none` means the tick raised.
-/

set_option autoImplicit false

namespace PyPaint

/-- A poll result: `contact` plus an optional position, exactly the pair
returned by `TouchscreenPoller.poll` / `CursorPoller.poll`. -/
structure Sample where
  contact : Bool
  position : Option (Int × Int)
deriving DecidableEq, Repr

/-- Source `TouchscreenPoller.poll`: reads `touch_point` (here the parameter `tp`,
the x/y of the hardware touch point, `none` when no touch; the pressure
component of the tuple is never consulted by the paint code) and returns
`(p is not None, p)`. -/
def TouchscreenPoller.poll (tp : Option (Int × Int)) : Bool × Option (Int × Int) :=
  (tp.isSome, tp)

/-- Source `CursorPoller.poll`: reads the debounced button state `held` and the
cursor position `(cx, cy)` with the bitmap-centre offsets `(xOff, yOff)`;
`location` stays `None` unless the button is held. -/
def CursorPoller.poll (held : Bool) (cx cy xOff yOff : Int) : Bool × Option (Int × Int) :=
  (held, if held then some (cx + xOff, cy + yOff) else none)

/-- Source `Paint._plot`: write palette index `c` at `(x, y)` into the
`w × h` framebuffer; an out-of-range index raises `IndexError`, which the
source swallows, so here the write is an explicit no-op out of bounds. -/
def plot (w h : Nat) (fb : Int × Int → Nat) (x y : Int) (c : Nat) : Int × Int → Nat :=
  if 0 ≤ x ∧ x < (w : Int) ∧ 0 ≤ y ∧ y < (h : Int) then
    fun p => if p = (x, y) then c else fb p
  else
    fb

/-- Source `Paint._was_just_pressed`: `self._pressed and not self._last_pressed`. -/
def wasJustPressed (lastPressed cur : Bool) : Bool :=
  cur && !lastPressed

/-- Source `Paint._was_just_released`: `not self._pressed and self._last_pressed`. -/
def wasJustReleased (lastPressed cur : Bool) : Bool :=
  !cur && lastPressed

/-- Source `Paint._did_move`: when both the current and last locations are present,
whether they differ in x or in y; otherwise the property falls off the end
of the method and returns `None`, which the caller treats as false. -/
def didMove (lastLoc loc : Option (Int × Int)) : Bool :=
  match loc, lastLoc with
  | some l, some ll => decide (l.1 ≠ ll.1) || decide (l.2 ≠ ll.2)
  | _, _ => false

/-- The events one iteration of `Paint.run` dispatches, in dispatch order.
Each constructor carries exactly the arguments the source passes to the
corresponding handler (`_handle_press(self._location)`,
`_handle_release(self._location)`,
`_handle_motion(self._last_location, self._location)`). -/
inductive Event where
  | justPressed (pos : Option (Int × Int))
  | justReleased (pos : Option (Int × Int))
  | moved (start finish : Option (Int × Int))
deriving DecidableEq, Repr

/-- The event dispatch of one `Paint.run` iteration, after `_update` has
shifted the previous sample into `last` and polled `cur`: an
`if _was_just_pressed / elif _was_just_released` pair followed by an
independent `if _did_move and _pressed`. -/
def tickEvents (last cur : Sample) : List Event :=
  (if wasJustPressed last.contact cur.contact then [Event.justPressed cur.position]
   else if wasJustReleased last.contact cur.contact then [Event.justReleased cur.position]
   else [])
  ++ (if didMove last.position cur.position && cur.contact then
        [Event.moved last.position cur.position]
      else [])

end PyPaint

namespace PyPaint

/-! ## The line walk of `Paint._goto` -/

/-- The `while (not rev and x0 <= x1) or (rev and x1 <= x0)` loop of
`Paint._goto`, emitting the plotted coordinate of each iteration
(`(y0, x0)` when `steep`, else `(x0, y0)`).  `e2` is twice the source's
`err`, so `err -= dy` is `e2 - 2*dy` and `err += dx` is `e2 + 2*dx`,
and `err < 0` is exactly `e2 < 0`.  The `Nat` argument is fuel. -/
def bresLoop (steep rev : Bool) (x1 dx dy ystep : Int) :
    Nat → Int → Int → Int → List (Int × Int)
  | 0, _, _, _ => []
  | Nat.succ n, x0, y0, e2 =>
    if (rev = false ∧ x0 ≤ x1) ∨ (rev = true ∧ x1 ≤ x0) then
      (if steep then ((y0, x0) : Int × Int) else (x0, y0)) ::
        (let e := e2 - 2 * dy
         if e < 0 then
           bresLoop steep rev x1 dx dy ystep n
             (if rev then x0 - 1 else x0 + 1) (y0 + ystep) (e + 2 * dx)
         else
           bresLoop steep rev x1 dx dy ystep n
             (if rev then x0 - 1 else x0 + 1) y0 e)
    else []

/-- The test `steep = abs(y1 - y0) > abs(x1 - x0)` from `Paint._goto`. -/
def steepOf (s e : Int × Int) : Bool :=
  decide (|e.2 - s.2| > |e.1 - s.1|)

/-- The role swap `x0, y0 = y0, x0` applied when the segment is steep. -/
def swapIf (b : Bool) (p : Int × Int) : Int × Int :=
  if b then (p.2, p.1) else p

/-- The primary-axis span `dx` of `Paint._goto` after the steep swap and
the `rev` re-computation: `x1 - x0`, or `x0 - x1` when `x0 > x1`. -/
def dxOf (s e : Int × Int) : Int :=
  let s' := swapIf (steepOf s e) s
  let e' := swapIf (steepOf s e) e
  if s'.1 > e'.1 then s'.1 - e'.1 else e'.1 - s'.1

/-- The ordered pixel emission of `Paint._goto` from `s` to `e`, with the
loop given `n` fuel: the setup mirrors the source (`steep` swap, `rev`
detection, `dy = abs(y1 - y0)`, `ystep`, `err = dx / 2` i.e. `e2 = dx`). -/
def linePixelsFuel (s e : Int × Int) (n : Nat) : List (Int × Int) :=
  let steep := steepOf s e
  let s' := swapIf steep s
  let e' := swapIf steep e
  let rev : Bool := decide (s'.1 > e'.1)
  let dx := dxOf s e
  let dy := |e'.2 - s'.2|
  let ystep : Int := if s'.2 < e'.2 then 1 else -1
  bresLoop steep rev e'.1 dx dy ystep n s'.1 s'.2 dx

/-- The pixel emission of `Paint._goto`, with fuel `dx + 1` (proved below
to complete the walk: the loop guard goes false exactly then). -/
def linePixels (s e : Int × Int) : List (Int × Int) :=
  linePixelsFuel s e ((dxOf s e).toNat + 1)

/-- Source `Paint._goto` as a framebuffer transformer: plot every emitted pixel in
order with the pen color `c`. -/
def goto (w h : Nat) (fb : Int × Int → Nat) (s e : Int × Int) (c : Nat) :
    Int × Int → Nat :=
  (linePixels s e).foldl (fun f p => plot w h f p.1 p.2 c) fb

end PyPaint

namespace PyPaint

/-! ## The control loop of `Paint.run` -/

/-- The mutable `Paint` state the loop body touches: `_pressed`,
`_location`, the foreground bitmap, and `_pencolor` (initialised to 7 and
never changed in this program). `_last_pressed` / `_last_location` are not
stored: `_update` overwrites them from `_pressed` / `_location` at the top
of every tick, so they are recomputed by `tick`. -/
structure PaintState where
  pressed : Bool
  location : Option (Int × Int)
  fb : Int × Int → Nat
  pencolor : Nat

/-- Source `Paint._handle_press(location)`: plots `location[0], location[1]` —
subscripting `None` raises an uncaught `TypeError`, modelled as `none`. -/
def handlePress (w h : Nat) (fb : Int × Int → Nat) (c : Nat)
    (loc : Option (Int × Int)) : Option (Int × Int → Nat) :=
  match loc with
  | some p => some (plot w h fb p.1 p.2 c)
  | none => none

/-- Source `Paint._handle_motion(start, end)`: delegates to `_goto`; subscripting
a `None` endpoint would raise, modelled as `none`. -/
def handleMotion (w h : Nat) (fb : Int × Int → Nat) (c : Nat)
    (s e : Option (Int × Int)) : Option (Int × Int → Nat) :=
  match s, e with
  | some a, some b => some (goto w h fb a b c)
  | _, _ => none

/-- One iteration of `Paint.run`: `_update` (shift previous, poll `cur`),
then the press/release dispatch, then the motion dispatch.
`_handle_release` only logs, so it leaves the framebuffer alone.
`none` means the iteration raised an uncaught exception. -/
def tick (w h : Nat) (st : PaintState) (cur : Sample) : Option PaintState :=
  let lastPressed := st.pressed
  let lastLoc := st.location
  let fb1? :=
    if wasJustPressed lastPressed cur.contact then
      handlePress w h st.fb st.pencolor cur.position
    else if wasJustReleased lastPressed cur.contact then
      some st.fb
    else
      some st.fb
  match fb1? with
  | none => none
  | some fb1 =>
    let fb2? :=
      if didMove lastLoc cur.position && cur.contact then
        handleMotion w h fb1 st.pencolor lastLoc cur.position
      else
        some fb1
    match fb2? with
    | none => none
    | some fb2 =>
      some { pressed := cur.contact, location := cur.position, fb := fb2,
             pencolor := st.pencolor }

/-- Run `Paint.run` over a finite list of polled samples, stopping with
`none` if any tick raises. -/
def runTicks (w h : Nat) (st : PaintState) : List Sample → Option PaintState
  | [] => some st
  | s :: rest =>
    match tick w h st s with
    | none => none
    | some st' => runTicks w h st' rest

/-- The poller contract the spec's data model states: position is present
exactly when contact is reported. -/
def contactInv (s : Sample) : Prop :=
  s.contact = true ↔ s.position.isSome = true

instance (s : Sample) : Decidable (contactInv s) := by
  unfold contactInv; infer_instance

end PyPaint

namespace PyPaint

/-! ## Poller invariants (C10) -/

/-- C10: both concrete pollers report contact exactly when they return a
position: `TouchscreenPoller.poll` returns `(p is not None, p)`, and
`CursorPoller.poll` fills `location` exactly when the button is held, so a
contact-true/no-position sample can never arise from either poller. -/
theorem poller_contact_position_invariant :
    (∀ tp : Option (Int × Int),
      (TouchscreenPoller.poll tp).1 = (TouchscreenPoller.poll tp).2.isSome) ∧
    (∀ (held : Bool) (cx cy xOff yOff : Int),
      (CursorPoller.poll held cx cy xOff yOff).1
        = (CursorPoller.poll held cx cy xOff yOff).2.isSome) := by
  constructor
  · intro tp
    rfl
  · intro held cx cy xOff yOff
    cases held <;> simp [CursorPoller.poll]

/-! ## Out-of-bounds writes (C5) -/

/-- C5: a pixel write outside the framebuffer (`x < 0`, `x ≥ w`, `y < 0`
or `y ≥ h`) is a silent no-op: the framebuffer is returned unchanged (the
source swallows the `IndexError`, so nothing propagates), folding the rest
of a segment's pixels over the skipped write proceeds exactly as if the
write had not happened, and in particular a write at `(w, 0)` changes
nothing. -/
theorem plot_out_of_bounds_noop (w h : Nat) (fb : Int × Int → Nat)
    (x y : Int) (c : Nat)
    (hoob : x < 0 ∨ (w : Int) ≤ x ∨ y < 0 ∨ (h : Int) ≤ y) :
    plot w h fb x y c = fb ∧
    (∀ ps : List (Int × Int),
      ps.foldl (fun f p => plot w h f p.1 p.2 c) (plot w h fb x y c)
        = ps.foldl (fun f p => plot w h f p.1 p.2 c) fb) ∧
    plot w h fb (w : Int) 0 c = fb := by
  have hskip : plot w h fb x y c = fb := by
    unfold plot
    rw [if_neg]
    intro hin
    rcases hin with ⟨h1, h2, h3, h4⟩
    omega
  refine ⟨hskip, ?_, ?_⟩
  · intro ps
    rw [hskip]
  · unfold plot
    rw [if_neg]
    intro hin
    rcases hin with ⟨_, h2, _, _⟩
    omega

/-- Witness for C5 at the concrete input `(320, 0)` on a `320 × 240`
framebuffer. -/
theorem plot_out_of_bounds_noop_witness :
    plot 320 240 (fun _ => 0) 320 0 7 = (fun _ => 0) :=
  (plot_out_of_bounds_noop 320 240 (fun _ => 0) 320 0 7
    (Or.inr (Or.inl (by decide)))).1

/-! ## Release events (C2) -/

/-- C2 counterexample: on the release transition from
`{contact: true, position: (5,5)}` to `{contact: false, position: none}`,
the event dispatched is not `JustReleased (some (5,5))` — `Paint.run`
passes the handler `self._location`, the current (post-release) position,
not the previous one. -/
theorem release_position_cex :
    ¬ (tickEvents ⟨true, some (5, 5)⟩ ⟨false, none⟩
        = [Event.justReleased (some (5, 5))]) := by
  decide

/-- C2 amended: for every press-to-release sample pair exactly one
`JustReleased` event is raised, and the argument passed to the release
handler is the current sample's position (not the previous position; the
handler ignores the argument, so no further behaviour depends on it). -/
theorem release_carries_current_position (last cur : Sample)
    (hl : last.contact = true) (hc : cur.contact = false) :
    tickEvents last cur = [Event.justReleased cur.position] := by
  simp [tickEvents, wasJustPressed, wasJustReleased, hl, hc]

/-- Witness for the amended C2 at a concrete release transition. -/
theorem release_carries_current_position_witness :
    tickEvents ⟨true, some (5, 5)⟩ ⟨false, none⟩ = [Event.justReleased none] :=
  release_carries_current_position ⟨true, some (5, 5)⟩ ⟨false, none⟩ rfl rfl

/-! ## Contact-true-with-no-position samples (C1) -/

/-- C1 counterexample: with the previous sample un-pressed, a polled
sample `{contact: true, position: none}` makes the tick raise (the press
handler subscripts `None`), so the sample is not treated as contact-false,
and the failure is fatal rather than logged-and-ignored. -/
theorem stale_sample_fatal_cex :
    tick 320 240 ⟨false, none, fun _ => 0, 7⟩ ⟨true, none⟩ = none := rfl

/-- C1 amended: a `{contact: true, position: none}` sample is only
half-degraded.  If the previous sample was already pressed, the tick
performs no press, release, or motion handling and leaves the framebuffer
unchanged (only the stored location becomes null).  But if the previous
sample was un-pressed, the press edge subscripts the missing position and
the tick dies with an uncaught `TypeError` — the contract violation is
fatal there, and it is never specifically logged. -/
theorem stale_sample_behavior (w h : Nat) (st : PaintState) (s : Sample)
    (hc : s.contact = true) (hp : s.position = none) :
    (st.pressed = true →
      tick w h st s = some { st with location := none }) ∧
    (st.pressed = false → tick w h st s = none) := by
  constructor
  · intro hpr
    simp [tick, wasJustPressed, wasJustReleased, didMove, hc, hp, hpr]
  · intro hpr
    simp [tick, wasJustPressed, wasJustReleased, didMove, handlePress, hc, hp, hpr]

/-- Witness for the amended C1: both branches at concrete states. -/
theorem stale_sample_behavior_witness :
    (tick 320 240 ⟨true, some (3, 3), fun _ => 0, 7⟩ ⟨true, none⟩
      = some { pressed := true, location := none, fb := fun _ => 0, pencolor := 7 }) ∧
    (tick 320 240 ⟨false, none, fun _ => 0, 7⟩ ⟨true, none⟩ = none) :=
  ⟨(stale_sample_behavior 320 240 ⟨true, some (3, 3), fun _ => 0, 7⟩
      ⟨true, none⟩ rfl rfl).1 rfl,
   (stale_sample_behavior 320 240 ⟨false, none, fun _ => 0, 7⟩
      ⟨true, none⟩ rfl rfl).2 rfl⟩

/-! ## Concrete rasterizer cases (C8) -/

/-- C8: the pixel sets of the four concrete segments from the spec's test
table: one horizontal, one vertical, one diagonal, one degenerate. -/
theorem line_concrete_cases :
    (linePixels (0, 0) (5, 0)).toFinset
      = {(0, 0), (1, 0), (2, 0), (3, 0), (4, 0), (5, 0)} ∧
    (linePixels (0, 0) (0, 5)).toFinset
      = {(0, 0), (0, 1), (0, 2), (0, 3), (0, 4), (0, 5)} ∧
    (linePixels (0, 0) (3, 3)).toFinset
      = {(0, 0), (1, 1), (2, 2), (3, 3)} ∧
    (linePixels (0, 0) (0, 0)).toFinset = {(0, 0)} := by
  refine ⟨?_, ?_, ?_, ?_⟩ <;> decide

end PyPaint

namespace PyPaint

/-! ## The shape of the line walk -/

/-- The dominant-axis coordinate of an emitted pixel: the walk plots
`(y0, x0)` when steep and `(x0, y0)` otherwise, so the loop's primary
coordinate `x0` is the second component when steep, the first otherwise. -/
def prim (steep : Bool) (p : Int × Int) : Int :=
  if steep then p.2 else p.1

/-- With `rev = false` the loop guard `x0 <= x1` fails as soon as the
primary coordinate has passed the endpoint, for any fuel. -/
theorem bresLoop_false_of_lt (steep : Bool) (x1 dx dy ystep : Int) (n : Nat)
    (x0 y0 e2 : Int) (h : x1 < x0) :
    bresLoop steep false x1 dx dy ystep n x0 y0 e2 = [] := by
  cases n with
  | zero => rfl
  | succ n =>
    simp only [bresLoop]
    rw [if_neg]
    rintro (⟨-, hle⟩ | ⟨hrev, -⟩)
    · omega
    · simp at hrev

/-- With `rev = true` the loop guard `x1 <= x0` fails as soon as the
primary coordinate has passed the endpoint, for any fuel. -/
theorem bresLoop_true_of_lt (steep : Bool) (x1 dx dy ystep : Int) (n : Nat)
    (x0 y0 e2 : Int) (h : x0 < x1) :
    bresLoop steep true x1 dx dy ystep n x0 y0 e2 = [] := by
  cases n with
  | zero => rfl
  | succ n =>
    simp only [bresLoop]
    rw [if_neg]
    rintro (⟨hrev, -⟩ | ⟨-, hle⟩)
    · simp at hrev
    · omega

/-- Dominant-axis coordinates of the forward (`rev = false`) walk: one
pixel per primary position `x0, x0+1, …, x1`, whatever the secondary
state. -/
theorem bresLoop_false_map_prim (steep : Bool) (x1 dx dy ystep : Int) :
    ∀ (n : Nat) (x0 y0 e2 : Int), x0 ≤ x1 → (x1 - x0).toNat < n →
    (bresLoop steep false x1 dx dy ystep n x0 y0 e2).map (prim steep)
      = (List.range ((x1 - x0).toNat + 1)).map (fun i : Nat => x0 + (i : Int)) := by
  intro n
  induction n with
  | zero => intro x0 y0 e2 h1 h2; omega
  | succ n ih =>
    intro x0 y0 e2 h1 h2
    simp only [bresLoop]
    rw [if_pos (Or.inl ⟨trivial, h1⟩)]
    rcases lt_or_eq_of_le h1 with hlt | heq
    · have hk : (x1 - x0).toNat = (x1 - (x0 + 1)).toNat + 1 := by omega
      have hn : (x1 - (x0 + 1)).toNat < n := by omega
      have hle : x0 + 1 ≤ x1 := hlt
      have hfun : ((fun i : Nat => x0 + (i : Int)) ∘ Nat.succ)
          = fun i : Nat => (x0 + 1) + (i : Int) := by
        funext i
        simp only [Function.comp]
        push_cast
        ring
      rw [List.map_cons, hk, List.range_succ_eq_map, List.map_cons, List.map_map, hfun]
      congr 1
      · cases steep <;> simp [prim]
      · split
        · simpa using ih (x0 + 1) (y0 + ystep) (e2 - 2 * dy + 2 * dx) hle hn
        · simpa using ih (x0 + 1) y0 (e2 - 2 * dy) hle hn
    · have h0 : (x1 - x0).toNat = 0 := by omega
      have hnil : ∀ y e, bresLoop steep false x1 dx dy ystep n (x1 + 1) y e = [] :=
        fun y e => bresLoop_false_of_lt steep x1 dx dy ystep n (x1 + 1) y e (by omega)
      rw [h0]
      cases steep <;> simp [prim, hnil, List.range_succ, heq]

/-- Dominant-axis coordinates of the reversed (`rev = true`) walk: one
pixel per primary position `x0, x0-1, …, x1`. -/
theorem bresLoop_true_map_prim (steep : Bool) (x1 dx dy ystep : Int) :
    ∀ (n : Nat) (x0 y0 e2 : Int), x1 ≤ x0 → (x0 - x1).toNat < n →
    (bresLoop steep true x1 dx dy ystep n x0 y0 e2).map (prim steep)
      = (List.range ((x0 - x1).toNat + 1)).map (fun i : Nat => x0 - (i : Int)) := by
  intro n
  induction n with
  | zero => intro x0 y0 e2 h1 h2; omega
  | succ n ih =>
    intro x0 y0 e2 h1 h2
    simp only [bresLoop]
    rw [if_pos (Or.inr ⟨trivial, h1⟩)]
    rcases lt_or_eq_of_le h1 with hlt | heq
    · have hk : (x0 - x1).toNat = ((x0 - 1) - x1).toNat + 1 := by omega
      have hn : ((x0 - 1) - x1).toNat < n := by omega
      have hle : x1 ≤ x0 - 1 := by omega
      have hfun : ((fun i : Nat => x0 - (i : Int)) ∘ Nat.succ)
          = fun i : Nat => (x0 - 1) - (i : Int) := by
        funext i
        simp only [Function.comp]
        push_cast
        ring
      rw [List.map_cons, hk, List.range_succ_eq_map, List.map_cons, List.map_map, hfun]
      congr 1
      · cases steep <;> simp [prim]
      · split
        · simpa using ih (x0 - 1) (y0 + ystep) (e2 - 2 * dy + 2 * dx) hle hn
        · simpa using ih (x0 - 1) y0 (e2 - 2 * dy) hle hn
    · have h0 : (x0 - x1).toNat = 0 := by omega
      have hnil : ∀ y e, bresLoop steep true x0 dx dy ystep n (x0 - 1) y e = [] :=
        fun y e => bresLoop_true_of_lt steep x0 dx dy ystep n (x0 - 1) y e (by omega)
      rw [h0]
      cases steep <;> simp [prim, hnil, List.range_succ, heq]

end PyPaint

namespace PyPaint

/-- Extra fuel is irrelevant to the forward walk: any fuel past the number
of loop iterations gives the same emission (the guard, not fuel
exhaustion, ends the loop). -/
theorem bresLoop_false_fuel (steep : Bool) (x1 dx dy ystep : Int) :
    ∀ (n m : Nat) (x0 y0 e2 : Int), x0 ≤ x1 → (x1 - x0).toNat < n → (x1 - x0).toNat < m →
    bresLoop steep false x1 dx dy ystep n x0 y0 e2
      = bresLoop steep false x1 dx dy ystep m x0 y0 e2 := by
  intro n
  induction n with
  | zero => intro m x0 y0 e2 h1 h2 h3; omega
  | succ n ih =>
    intro m x0 y0 e2 h1 h2 h3
    cases m with
    | zero => omega
    | succ m =>
      simp only [bresLoop]
      rw [if_pos (Or.inl ⟨trivial, h1⟩), if_pos (Or.inl ⟨trivial, h1⟩)]
      congr 1
      rcases lt_or_eq_of_le h1 with hlt | heq
      · split
        · exact ih m (x0 + 1) (y0 + ystep) _ hlt (by omega) (by omega)
        · exact ih m (x0 + 1) y0 _ hlt (by omega) (by omega)
      · have hn1 : ∀ y ee, bresLoop steep false x1 dx dy ystep n (x0 + 1) y ee = [] :=
          fun y ee => bresLoop_false_of_lt steep x1 dx dy ystep n (x0 + 1) y ee (by omega)
        have hm1 : ∀ y ee, bresLoop steep false x1 dx dy ystep m (x0 + 1) y ee = [] :=
          fun y ee => bresLoop_false_of_lt steep x1 dx dy ystep m (x0 + 1) y ee (by omega)
        split <;> simp [hn1, hm1]

/-- Extra fuel is irrelevant to the reversed walk. -/
theorem bresLoop_true_fuel (steep : Bool) (x1 dx dy ystep : Int) :
    ∀ (n m : Nat) (x0 y0 e2 : Int), x1 ≤ x0 → (x0 - x1).toNat < n → (x0 - x1).toNat < m →
    bresLoop steep true x1 dx dy ystep n x0 y0 e2
      = bresLoop steep true x1 dx dy ystep m x0 y0 e2 := by
  intro n
  induction n with
  | zero => intro m x0 y0 e2 h1 h2 h3; omega
  | succ n ih =>
    intro m x0 y0 e2 h1 h2 h3
    cases m with
    | zero => omega
    | succ m =>
      simp only [bresLoop]
      rw [if_pos (Or.inr ⟨trivial, h1⟩), if_pos (Or.inr ⟨trivial, h1⟩)]
      congr 1
      rcases lt_or_eq_of_le h1 with hlt | heq
      · split
        · exact ih m (x0 - 1) (y0 + ystep) _ (by omega) (by omega) (by omega)
        · exact ih m (x0 - 1) y0 _ (by omega) (by omega) (by omega)
      · have hn1 : ∀ y ee, bresLoop steep true x1 dx dy ystep n (x0 - 1) y ee = [] :=
          fun y ee => bresLoop_true_of_lt steep x1 dx dy ystep n (x0 - 1) y ee (by omega)
        have hm1 : ∀ y ee, bresLoop steep true x1 dx dy ystep m (x0 - 1) y ee = [] :=
          fun y ee => bresLoop_true_of_lt steep x1 dx dy ystep m (x0 - 1) y ee (by omega)
        split <;> simp [hn1, hm1]

/-- The primary-axis span equals the larger of the two coordinate spans:
the steep swap puts the longer axis first. -/
theorem dxOf_eq_max (s e : Int × Int) :
    dxOf s e = max |e.1 - s.1| |e.2 - s.2| := by
  by_cases hd : |e.2 - s.2| > |e.1 - s.1|
  · have hb : steepOf s e = true := decide_eq_true hd
    simp only [dxOf, hb, swapIf, if_true]
    rw [max_def]
    simp only [Int.abs_eq_natAbs] at hd ⊢
    split_ifs <;> omega
  · have hb : steepOf s e = false := decide_eq_false hd
    simp only [dxOf, hb, swapIf, Bool.false_eq_true, if_false]
    rw [max_def]
    simp only [Int.abs_eq_natAbs] at hd ⊢
    split_ifs <;> omega

/-- Steepness is symmetric in the endpoints. -/
theorem steepOf_symm (s e : Int × Int) : steepOf e s = steepOf s e := by
  simp only [steepOf, abs_sub_comm]

/-- The primary-axis span is symmetric in the endpoints. -/
theorem dxOf_symm (s e : Int × Int) : dxOf e s = dxOf s e := by
  simp only [dxOf, steepOf_symm]
  split_ifs <;> omega

end PyPaint

namespace PyPaint

/-- Ascending case: when the (possibly swapped) start does not exceed the
end, the walk is forward and visits the primary coordinates
`s'.1, s'.1 + 1, …, e'.1` in order. -/
theorem linePixelsFuel_map_prim_le (s e : Int × Int) (n : Nat)
    (h : (swapIf (steepOf s e) s).1 ≤ (swapIf (steepOf s e) e).1)
    (hn : (dxOf s e).toNat < n) :
    (linePixelsFuel s e n).map (prim (steepOf s e))
      = (List.range ((dxOf s e).toNat + 1)).map
          (fun i : Nat => (swapIf (steepOf s e) s).1 + (i : Int)) := by
  have hrev : decide ((swapIf (steepOf s e) s).1 > (swapIf (steepOf s e) e).1) = false :=
    decide_eq_false (by omega)
  have hdx : dxOf s e = (swapIf (steepOf s e) e).1 - (swapIf (steepOf s e) s).1 := by
    simp only [dxOf]
    rw [if_neg (by omega)]
  simp only [linePixelsFuel]
  rw [hrev, bresLoop_false_map_prim _ _ _ _ _ n _ _ _ h (by omega), hdx]

/-- Descending case: when the (possibly swapped) start is at or past the
end, the walk is reversed and visits `s'.1, s'.1 - 1, …, e'.1` in order. -/
theorem linePixelsFuel_map_prim_ge (s e : Int × Int) (n : Nat)
    (h : (swapIf (steepOf s e) e).1 ≤ (swapIf (steepOf s e) s).1)
    (hn : (dxOf s e).toNat < n) :
    (linePixelsFuel s e n).map (prim (steepOf s e))
      = (List.range ((dxOf s e).toNat + 1)).map
          (fun i : Nat => (swapIf (steepOf s e) s).1 - (i : Int)) := by
  rcases lt_or_eq_of_le h with hlt | heq
  · have hrev : decide ((swapIf (steepOf s e) s).1 > (swapIf (steepOf s e) e).1) = true :=
      decide_eq_true hlt
    have hdx : dxOf s e = (swapIf (steepOf s e) s).1 - (swapIf (steepOf s e) e).1 := by
      simp only [dxOf]
      rw [if_pos hlt]
    simp only [linePixelsFuel]
    rw [hrev, bresLoop_true_map_prim _ _ _ _ _ n _ _ _ h (by omega), hdx]
  · have hrev : decide ((swapIf (steepOf s e) s).1 > (swapIf (steepOf s e) e).1) = false :=
      decide_eq_false (by omega)
    have hdx : dxOf s e = 0 := by
      simp only [dxOf]
      rw [if_neg (by omega)]
      omega
    simp only [linePixelsFuel]
    rw [hrev, bresLoop_false_map_prim _ _ _ _ _ n _ _ _ (by omega) (by omega), hdx]
    have h0 : ((swapIf (steepOf s e) e).1 - (swapIf (steepOf s e) s).1).toNat = 0 := by
      omega
    rw [h0]
    simp [List.range_succ]

/-- The emission length of the finished walk: `dx + 1` pixels. -/
theorem linePixels_length (s e : Int × Int) :
    (linePixels s e).length = (dxOf s e).toNat + 1 := by
  rcases le_total (swapIf (steepOf s e) s).1 (swapIf (steepOf s e) e).1 with h | h
  · have := congrArg List.length
      (linePixelsFuel_map_prim_le s e ((dxOf s e).toNat + 1) h (Nat.lt_succ_self _))
    simpa [linePixels] using this
  · have := congrArg List.length
      (linePixelsFuel_map_prim_ge s e ((dxOf s e).toNat + 1) h (Nat.lt_succ_self _))
    simpa [linePixels] using this

/-- The degenerate walk: from a point to itself the loop runs exactly one
iteration and emits that point. -/
theorem linePixels_self (p : Int × Int) : linePixels p p = [p] := by
  have hsteep : steepOf p p = false := by
    simp [steepOf]
  have hdx : dxOf p p = 0 := by
    simp [dxOf, hsteep, swapIf]
  simp [linePixels, linePixelsFuel, hsteep, hdx, swapIf, bresLoop]

end PyPaint

namespace PyPaint

/-- Any fuel beyond the walk's iteration count yields the canonical
emission: the loop guard terminates the walk, never fuel exhaustion. -/
theorem linePixelsFuel_eq_linePixels (s e : Int × Int) (n : Nat)
    (hn : (dxOf s e).toNat < n) :
    linePixelsFuel s e n = linePixels s e := by
  unfold linePixels
  rcases lt_trichotomy (swapIf (steepOf s e) s).1 (swapIf (steepOf s e) e).1 with hlt | heq | hgt
  · have hrev : decide ((swapIf (steepOf s e) s).1 > (swapIf (steepOf s e) e).1) = false :=
      decide_eq_false (by omega)
    have hdx : dxOf s e = (swapIf (steepOf s e) e).1 - (swapIf (steepOf s e) s).1 := by
      simp only [dxOf]
      rw [if_neg (by omega)]
    simp only [linePixelsFuel]
    rw [hrev]
    exact bresLoop_false_fuel _ _ _ _ _ n _ _ _ _ (by omega) (by omega) (by omega)
  · have hrev : decide ((swapIf (steepOf s e) s).1 > (swapIf (steepOf s e) e).1) = false :=
      decide_eq_false (by omega)
    have hdx : dxOf s e = (swapIf (steepOf s e) e).1 - (swapIf (steepOf s e) s).1 := by
      simp only [dxOf]
      rw [if_neg (by omega)]
    simp only [linePixelsFuel]
    rw [hrev]
    exact bresLoop_false_fuel _ _ _ _ _ n _ _ _ _ (by omega) (by omega) (by omega)
  · have hrev : decide ((swapIf (steepOf s e) s).1 > (swapIf (steepOf s e) e).1) = true :=
      decide_eq_true hgt
    have hdx : dxOf s e = (swapIf (steepOf s e) s).1 - (swapIf (steepOf s e) e).1 := by
      simp only [dxOf]
      rw [if_pos hgt]
    simp only [linePixelsFuel]
    rw [hrev]
    exact bresLoop_true_fuel _ _ _ _ _ n _ _ _ _ (by omega) (by omega) (by omega)

/-- Reversing an ascending integer ramp gives the descending ramp from its
top. -/
theorem range_map_desc (a : Int) (k : Nat) :
    (List.range (k + 1)).map (fun i : Nat => a + (k : Int) - (i : Int))
      = ((List.range (k + 1)).map (fun i : Nat => a + (i : Int))).reverse := by
  induction k with
  | zero => simp [List.range_succ]
  | succ k ih =>
    have hfun : ((fun i : Nat => a + ((k + 1 : Nat) : Int) - (i : Int)) ∘ Nat.succ)
        = fun i : Nat => a + (k : Int) - (i : Int) := by
      funext i
      simp only [Function.comp]
      push_cast
      ring
    have h1 : (List.range (k + 1 + 1)).map (fun i : Nat => a + ((k + 1 : Nat) : Int) - (i : Int))
        = (a + ((k + 1 : Nat) : Int)) ::
            (List.range (k + 1)).map (fun i : Nat => a + (k : Int) - (i : Int)) := by
      rw [List.range_succ_eq_map, List.map_cons, List.map_map, hfun]
      congr 1
      push_cast
      ring
    have h2 : ((List.range (k + 1 + 1)).map (fun i : Nat => a + (i : Int))).reverse
        = (a + ((k + 1 : Nat) : Int)) ::
            ((List.range (k + 1)).map (fun i : Nat => a + (i : Int))).reverse := by
      rw [List.range_succ, List.map_append, List.reverse_append]
      simp
    rw [h1, h2, ih]

end PyPaint

namespace PyPaint

/-! ## Termination and pixel count (C9) -/

/-- C9: for every pair of integer endpoints the walk terminates by its
guard — any fuel beyond `max(|x1-x0|, |y1-y0|)` iterations produces the
same finished emission — and it emits exactly
`max(|x1-x0|, |y1-y0|) + 1` pixels; in particular a point-to-point walk
emits exactly one pixel. -/
theorem line_walk_terminates_count (s e : Int × Int) (n : Nat)
    (hn : (max |e.1 - s.1| |e.2 - s.2|).toNat < n) :
    linePixelsFuel s e n = linePixels s e ∧
    (linePixelsFuel s e n).length = (max |e.1 - s.1| |e.2 - s.2|).toNat + 1 ∧
    (s = e → linePixelsFuel s e n = [s]) := by
  have hdx := dxOf_eq_max s e
  have h1 : linePixelsFuel s e n = linePixels s e :=
    linePixelsFuel_eq_linePixels s e n (by omega)
  refine ⟨h1, ?_, ?_⟩
  · rw [h1, linePixels_length, hdx]
  · rintro rfl
    rw [h1]
    exact linePixels_self _

/-- Witness for C9: the degenerate point-to-point walk at `(2, 3)`. -/
theorem line_walk_terminates_count_witness :
    linePixelsFuel (2, 3) (2, 3) 1 = [(2, 3)] :=
  (line_walk_terminates_count (2, 3) (2, 3) 1 (by decide)).2.2 rfl

/-! ## One pixel per dominant-axis step (C7) -/

/-- C7: the walk never emits two pixels with the same dominant-axis
coordinate — for a non-steep segment all emitted x coordinates are
distinct, and for a steep segment all emitted y coordinates are. -/
theorem dominant_axis_single_pass (s e : Int × Int) :
    (steepOf s e = false → ((linePixels s e).map Prod.fst).Nodup) ∧
    (steepOf s e = true → ((linePixels s e).map Prod.snd).Nodup) := by
  have key : ((linePixels s e).map (prim (steepOf s e))).Nodup := by
    rcases le_total (swapIf (steepOf s e) s).1 (swapIf (steepOf s e) e).1 with h | h
    · rw [show linePixels s e = linePixelsFuel s e ((dxOf s e).toNat + 1) from rfl,
        linePixelsFuel_map_prim_le s e _ h (Nat.lt_succ_self _)]
      exact (List.nodup_range _).map (fun i j hij => by omega)
    · rw [show linePixels s e = linePixelsFuel s e ((dxOf s e).toNat + 1) from rfl,
        linePixelsFuel_map_prim_ge s e _ h (Nat.lt_succ_self _)]
      exact (List.nodup_range _).map (fun i j hij => by omega)
  constructor
  · intro hs
    have hfun : (linePixels s e).map Prod.fst
        = (linePixels s e).map (prim (steepOf s e)) := by
      rw [hs]
      rfl
    rw [hfun]
    exact key
  · intro hs
    have hfun : (linePixels s e).map Prod.snd
        = (linePixels s e).map (prim (steepOf s e)) := by
      rw [hs]
      rfl
    rw [hfun]
    exact key

/-- Witness for C7: a non-steep and a steep concrete segment. -/
theorem dominant_axis_single_pass_witness :
    ((linePixels (0, 0) (4, 1)).map Prod.fst).Nodup ∧
    ((linePixels (0, 0) (0, 5)).map Prod.snd).Nodup :=
  ⟨(dominant_axis_single_pass (0, 0) (4, 1)).1 (by decide),
   (dominant_axis_single_pass (0, 0) (0, 5)).2 (by decide)⟩

/-! ## Endpoint swap (C4) -/

/-- C4 counterexample: swapping the endpoints of the segment
`(0,0) – (4,1)` changes the emitted pixel set.  The forward walk emits
`(2,0)` where the reverse walk emits `(2,1)`: the error accumulator's
half-step bias `err = dx/2` with the strict `err < 0` test breaks the tie
asymmetrically. -/
theorem swap_pixel_set_cex :
    (linePixels (0, 0) (4, 1)).toFinset ≠ (linePixels (4, 1) (0, 0)).toFinset := by
  decide

/-- C4 amended: swapping the endpoints yields an emission of the same
length whose dominant-axis coordinates are exactly the reverse of the
original walk's (the segment is traversed in the opposite order, one pixel
per dominant-axis position); but the full unordered pixel sets need not
coincide — the secondary coordinates can disagree, as the counterexample
shows. -/
theorem swap_primary_reversal (A B : Int × Int) :
    (linePixels B A).length = (linePixels A B).length ∧
    (linePixels B A).map (prim (steepOf A B))
      = ((linePixels A B).map (prim (steepOf A B))).reverse := by
  constructor
  · rw [linePixels_length, linePixels_length, dxOf_symm]
  · rcases le_total (swapIf (steepOf A B) A).1 (swapIf (steepOf A B) B).1 with h | h
    · have hAB : (linePixels A B).map (prim (steepOf A B))
          = (List.range ((dxOf A B).toNat + 1)).map
              (fun i : Nat => (swapIf (steepOf A B) A).1 + (i : Int)) :=
        linePixelsFuel_map_prim_le A B _ h (Nat.lt_succ_self _)
      have hBA : (linePixels B A).map (prim (steepOf A B))
          = (List.range ((dxOf A B).toNat + 1)).map
              (fun i : Nat => (swapIf (steepOf A B) B).1 - (i : Int)) := by
        have hthis := linePixelsFuel_map_prim_ge B A ((dxOf B A).toNat + 1)
          (by rw [steepOf_symm]; exact h) (Nat.lt_succ_self _)
        rw [steepOf_symm, dxOf_symm] at hthis
        have hfu : linePixelsFuel B A ((dxOf A B).toNat + 1) = linePixels B A :=
          linePixelsFuel_eq_linePixels B A _ (by rw [dxOf_symm]; exact Nat.lt_succ_self _)
        rw [← hfu]
        exact hthis
      have hk : ((dxOf A B).toNat : Int)
          = (swapIf (steepOf A B) B).1 - (swapIf (steepOf A B) A).1 := by
        have : dxOf A B = (swapIf (steepOf A B) B).1 - (swapIf (steepOf A B) A).1 := by
          simp only [dxOf]
          rw [if_neg (by omega)]
        omega
      have hfun : (fun i : Nat => (swapIf (steepOf A B) B).1 - (i : Int))
          = fun i : Nat => (swapIf (steepOf A B) A).1 + ((dxOf A B).toNat : Int)
              - (i : Int) := by
        funext i
        omega
      rw [hAB, hBA, hfun, range_map_desc]
    · have hAB : (linePixels A B).map (prim (steepOf A B))
          = (List.range ((dxOf A B).toNat + 1)).map
              (fun i : Nat => (swapIf (steepOf A B) A).1 - (i : Int)) :=
        linePixelsFuel_map_prim_ge A B _ h (Nat.lt_succ_self _)
      have hBA : (linePixels B A).map (prim (steepOf A B))
          = (List.range ((dxOf A B).toNat + 1)).map
              (fun i : Nat => (swapIf (steepOf A B) B).1 + (i : Int)) := by
        have hthis := linePixelsFuel_map_prim_le B A ((dxOf B A).toNat + 1)
          (by rw [steepOf_symm]; exact h) (Nat.lt_succ_self _)
        rw [steepOf_symm, dxOf_symm] at hthis
        have hfu : linePixelsFuel B A ((dxOf A B).toNat + 1) = linePixels B A :=
          linePixelsFuel_eq_linePixels B A _ (by rw [dxOf_symm]; exact Nat.lt_succ_self _)
        rw [← hfu]
        exact hthis
      have hk : ((dxOf A B).toNat : Int)
          = (swapIf (steepOf A B) A).1 - (swapIf (steepOf A B) B).1 := by
        have hcase : dxOf A B = (swapIf (steepOf A B) A).1 - (swapIf (steepOf A B) B).1 := by
          simp only [dxOf]
          rcases lt_or_eq_of_le h with hlt | heq
          · rw [if_pos hlt]
          · rw [if_neg (by omega)]
            omega
        omega
      have hfun : (fun i : Nat => (swapIf (steepOf A B) A).1 - (i : Int))
          = fun i : Nat => (swapIf (steepOf A B) B).1 + ((dxOf A B).toNat : Int)
              - (i : Int) := by
        funext i
        omega
      rw [hAB, hBA, hfun, range_map_desc, List.reverse_reverse]

end PyPaint

namespace PyPaint

/-! ## Event classification (C3) -/

/-- C3: for samples satisfying the poller contract (contact iff position
present), the events of a tick are exactly the classification table:
`JustPressed` iff contact rose, carrying the current position; `Moved`
iff both samples are in contact and the positions differ in at least one
axis, carrying the previous and current positions; and no event at all
when contact is false on both samples or when pressed with the position
unchanged. -/
theorem event_classification (last cur : Sample)
    (hl : contactInv last) (hc : contactInv cur) :
    (∀ p, Event.justPressed p ∈ tickEvents last cur ↔
      (cur.contact = true ∧ last.contact = false ∧ p = cur.position)) ∧
    (∀ a b, Event.moved a b ∈ tickEvents last cur ↔
      (cur.contact = true ∧ last.contact = true ∧ a = last.position ∧ b = cur.position ∧
        ∃ pa pb, last.position = some pa ∧ cur.position = some pb ∧
          (pa.1 ≠ pb.1 ∨ pa.2 ≠ pb.2))) ∧
    ((last.contact = false ∧ cur.contact = false) → tickEvents last cur = []) ∧
    ((last.contact = true ∧ cur.contact = true ∧ last.position = cur.position) →
      tickEvents last cur = []) := by
  obtain ⟨lc, lp⟩ := last
  obtain ⟨cc, cp⟩ := cur
  simp only [contactInv] at hl hc
  cases lc <;> cases cc
  · -- no contact on either sample
    have hlp : lp = none := by
      rcases lp with _ | p
      · rfl
      · simp at hl
    have hcp : cp = none := by
      rcases cp with _ | p
      · rfl
      · simp at hc
    subst hlp
    subst hcp
    refine ⟨?_, ?_, ?_, ?_⟩ <;>
      simp [tickEvents, wasJustPressed, wasJustReleased, didMove]
  · -- press edge
    have hlp : lp = none := by
      rcases lp with _ | p
      · rfl
      · simp at hl
    obtain ⟨p0, rfl⟩ : ∃ p0, cp = some p0 := by
      rcases cp with _ | p0
      · simp at hc
      · exact ⟨p0, rfl⟩
    subst hlp
    refine ⟨?_, ?_, ?_, ?_⟩ <;>
      simp [tickEvents, wasJustPressed, wasJustReleased, didMove]
  · -- release edge
    obtain ⟨p0, rfl⟩ : ∃ p0, lp = some p0 := by
      rcases lp with _ | p0
      · simp at hl
      · exact ⟨p0, rfl⟩
    have hcp : cp = none := by
      rcases cp with _ | p
      · rfl
      · simp at hc
    subst hcp
    refine ⟨?_, ?_, ?_, ?_⟩ <;>
      simp [tickEvents, wasJustPressed, wasJustReleased, didMove]
  · -- held on both samples
    obtain ⟨pa0, rfl⟩ : ∃ p0, lp = some p0 := by
      rcases lp with _ | p0
      · simp at hl
      · exact ⟨p0, rfl⟩
    obtain ⟨pb0, rfl⟩ : ∃ p0, cp = some p0 := by
      rcases cp with _ | p0
      · simp at hc
      · exact ⟨p0, rfl⟩
    by_cases hab : pa0 = pb0
    · subst hab
      refine ⟨?_, ?_, ?_, ?_⟩ <;>
        simp [tickEvents, wasJustPressed, wasJustReleased, didMove]
    · have hd : pa0.1 ≠ pb0.1 ∨ pa0.2 ≠ pb0.2 := by
        rw [Prod.ext_iff] at hab
        tauto
      have hmv : didMove (some pa0) (some pb0) = true := by
        simp only [didMove, Bool.or_eq_true, decide_eq_true_eq]
        tauto
      refine ⟨?_, ?_, ?_, ?_⟩ <;>
        simp [tickEvents, wasJustPressed, wasJustReleased, hmv, hd, hab]

/-- Witness for C3 at a concrete press edge. -/
theorem event_classification_witness :
    Event.justPressed (some (3, 4))
      ∈ tickEvents ⟨false, none⟩ ⟨true, some (3, 4)⟩ :=
  ((event_classification ⟨false, none⟩ ⟨true, some (3, 4)⟩
    (by decide) (by decide)).1 (some (3, 4))).mpr ⟨rfl, rfl, rfl⟩

end PyPaint

namespace PyPaint

/-! ## The end-to-end stroke (C6) -/

/-- An in-bounds write lands in its cell and leaves every other cell
alone. -/
theorem plot_inb (w h : Nat) (fb : Int × Int → Nat) (x y : Int) (c : Nat)
    (hx0 : 0 ≤ x) (hx1 : x < (w : Int)) (hy0 : 0 ≤ y) (hy1 : y < (h : Int)) :
    plot w h fb x y c = fun p => if p = (x, y) then c else fb p :=
  if_pos ⟨hx0, hx1, hy0, hy1⟩

/-- Folding in-bounds writes of one color over a pixel list colors exactly
the listed cells. -/
theorem foldl_plot_value (w h : Nat) (c : Nat) :
    ∀ (ps : List (Int × Int)) (fb : Int × Int → Nat),
    (∀ p ∈ ps, 0 ≤ p.1 ∧ p.1 < (w : Int) ∧ 0 ≤ p.2 ∧ p.2 < (h : Int)) →
    ∀ q, (ps.foldl (fun f p => plot w h f p.1 p.2 c) fb) q
      = if q ∈ ps then c else fb q := by
  intro ps
  induction ps with
  | nil =>
    intro fb hin q
    simp
  | cons a l ih =>
    intro fb hin q
    rw [List.foldl_cons,
      ih (plot w h fb a.1 a.2 c) (fun p hp => hin p (List.mem_cons_of_mem _ hp)) q]
    have ha := hin a (List.mem_cons_self _ _)
    rw [plot_inb w h fb a.1 a.2 c ha.1 ha.2.1 ha.2.2.1 ha.2.2.2]
    by_cases hq : q ∈ l
    · simp [hq]
    · by_cases hqa : q = a
      · simp [hq, hqa]
      · simp [hq, hqa]

/-- C6: from an idle start, the tick sequence press at `(10,10)`, move to
`(15,10)`, release paints exactly the cells `(10,10)` through `(15,10)`
with the current pen color and leaves every other framebuffer cell
untouched (given a display at least `16 × 11`, so the stroke is in
bounds). -/
theorem press_move_release_stroke (w h : Nat) (fb0 : Int × Int → Nat) (c : Nat)
    (hw : 16 ≤ w) (hh : 11 ≤ h) :
    ∃ st', runTicks w h ⟨false, none, fb0, c⟩
        [⟨true, some (10, 10)⟩, ⟨true, some (15, 10)⟩, ⟨false, none⟩] = some st' ∧
      (∀ i : Int, 10 ≤ i → i ≤ 15 → st'.fb (i, 10) = c) ∧
      (∀ q : Int × Int, q.2 ≠ 10 ∨ q.1 < 10 ∨ 15 < q.1 → st'.fb q = fb0 q) := by
  have hpix : linePixels (10, 10) (15, 10)
      = [(10, 10), (11, 10), (12, 10), (13, 10), (14, 10), (15, 10)] := by
    decide
  have hbounds : ∀ p ∈ ([(10, 10), (11, 10), (12, 10), (13, 10), (14, 10), (15, 10)] :
      List (Int × Int)),
      0 ≤ p.1 ∧ p.1 < (w : Int) ∧ 0 ≤ p.2 ∧ p.2 < (h : Int) := by
    intro p hp
    fin_cases hp <;> dsimp <;> omega
  refine ⟨{ pressed := false, location := none,
            fb := goto w h (plot w h fb0 10 10 c) (10, 10) (15, 10) c,
            pencolor := c }, rfl, ?_, ?_⟩
  · intro i h1 h2
    show goto w h (plot w h fb0 10 10 c) (10, 10) (15, 10) c (i, 10) = c
    simp only [goto]
    rw [hpix, foldl_plot_value w h c _ _ hbounds (i, 10)]
    have hmem : ((i, 10) : Int × Int)
        ∈ ([(10, 10), (11, 10), (12, 10), (13, 10), (14, 10), (15, 10)] :
            List (Int × Int)) := by
      interval_cases i <;> simp
    rw [if_pos hmem]
  · intro q hq
    show goto w h (plot w h fb0 10 10 c) (10, 10) (15, 10) c q = fb0 q
    simp only [goto]
    rw [hpix, foldl_plot_value w h c _ _ hbounds q]
    have hnot : ¬ (q ∈ ([(10, 10), (11, 10), (12, 10), (13, 10), (14, 10), (15, 10)] :
        List (Int × Int))) := by
      intro hqm
      fin_cases hqm <;> simp at hq
    rw [if_neg hnot,
      plot_inb w h fb0 10 10 c (by norm_num) (by omega) (by norm_num) (by omega)]
    have hq10 : ¬ (q = ((10 : Int), (10 : Int))) := by
      intro hq10
      subst hq10
      simp at hq
    simp [hq10]

/-- Witness for C6 on a `320 × 240` display with a zeroed framebuffer. -/
theorem press_move_release_stroke_witness :
    ∃ st', runTicks 320 240 ⟨false, none, fun _ => 0, 7⟩
        [⟨true, some (10, 10)⟩, ⟨true, some (15, 10)⟩, ⟨false, none⟩] = some st' ∧
      (∀ i : Int, 10 ≤ i → i ≤ 15 → st'.fb (i, 10) = 7) ∧
      (∀ q : Int × Int, q.2 ≠ 10 ∨ q.1 < 10 ∨ 15 < q.1 → st'.fb q = (fun _ => 0) q) :=
  press_move_release_stroke 320 240 (fun _ => 0) 7 (by norm_num) (by norm_num)

end PyPaint
